import Mathlib

/-!
Verification of `python/run-tests.py`: a shallow embedding of the parallel
PySpark test scheduler (priority task queue, per-task isolated directories,
subprocess outcome classification, skip-line aggregation, failure reporting
and process exit codes), with theorems checking the natural-language
specification against the code.
-/

namespace RunTests

/-! ## TaskQueue (`queue.PriorityQueue`, `main` lines 270-296, `process_queue` 303-312)

`main` executes `task_queue.put((priority, (python_exec, test_goal)))` for every
task before any worker starts, and each worker repeatedly runs
`task_queue.get_nowait()`.  `queue.PriorityQueue` is the Python standard
library's heap-backed queue: `get` returns the smallest entry, smallest being
the one `min(entries)` would return under Python's comparison.  Entries here
are nested tuples `(priority, (python_exec, test_goal))`, compared
lexicographically; strings are compared lexicographically by code point.
The embedding below models the queue contents as the list of entries in
insertion order and `get_nowait` as removal of the (first) minimal entry
under that tuple comparison.  Note the code pushes no insertion sequence
number: the tuple holds only the priority and the `(executable, goal)` pair. -/

/-- Python string `<` on code points, lexicographic (on the char lists). -/
def strLt : List Char → List Char → Bool
  | [], [] => false
  | [], _ :: _ => true
  | _ :: _, [] => false
  | a :: as, b :: bs => if a < b then true else if b < a then false else strLt as bs

/-- One queue entry: the pushed tuple `(priority, (python_exec, test_goal))`. -/
structure Task where
  priority : Int
  pythonExec : String
  testGoal : String
deriving DecidableEq

/-- Python `<` on the nested tuples `(priority, (python_exec, test_goal))`:
lexicographic on the components, strings compared by `strLt`. -/
def taskLt (a b : Task) : Bool :=
  if a.priority < b.priority then true
  else if b.priority < a.priority then false
  else if strLt a.pythonExec.data b.pythonExec.data then true
  else if strLt b.pythonExec.data a.pythonExec.data then false
  else strLt a.testGoal.data b.testGoal.data

/-- `task_queue.get_nowait()` against queue contents `q` (insertion order):
`none` models the `Queue.Empty` branch, otherwise the minimal entry under
Python's tuple comparison is removed (the first one when several are equal,
equal entries being indistinguishable). -/
def popOrEmpty : List Task → Option (Task × List Task)
  | [] => none
  | t :: ts =>
    match popOrEmpty ts with
    | none => some (t, [])
    | some (m, r) => if taskLt m t then some (m, t :: r) else some (t, ts)

/-- Repeated `get_nowait()` calls until `Queue.Empty`, bounded by a fuel. -/
def drainCount : Nat → List Task → List Task
  | 0, _ => []
  | Nat.succ n, q =>
    match popOrEmpty q with
    | none => []
    | some (m, r) => m :: drainCount n r

/-- The sequence of tasks a single consumer receives from repeated
`get_nowait()` calls on a queue populated with `q` (in insertion order). -/
def drain (q : List Task) : List Task := drainCount q.length q

theorem strLt_irrefl : ∀ a : List Char, strLt a a = false
  | [] => rfl
  | c :: cs => by
    simp only [strLt]
    rw [if_neg (lt_irrefl c), if_neg (lt_irrefl c)]
    exact strLt_irrefl cs

theorem strLt_asymm : ∀ a b : List Char, strLt a b = true → strLt b a = false
  | [], [], h => by simp [strLt] at h
  | [], _ :: _, _ => rfl
  | _ :: _, [], h => by simp [strLt] at h
  | a :: as, b :: bs, h => by
    simp only [strLt] at h ⊢
    by_cases hab : a < b
    · rw [if_neg (lt_asymm hab), if_pos hab]
    · rw [if_neg hab] at h
      by_cases hba : b < a
      · rw [if_pos hba] at h
        exact absurd h (by simp)
      · rw [if_neg hba] at h
        rw [if_neg hba, if_neg hab]
        exact strLt_asymm as bs h

theorem strLt_trans : ∀ a b c : List Char,
    strLt a b = true → strLt b c = true → strLt a c = true
  | [], [], _, h1, _ => by simp [strLt] at h1
  | [], _ :: _, [], _, h2 => by simp [strLt] at h2
  | [], _ :: _, _ :: _, _, _ => rfl
  | _ :: _, [], _, h1, _ => by simp [strLt] at h1
  | _ :: _, _ :: _, [], _, h2 => by simp [strLt] at h2
  | a :: as, b :: bs, c :: cs, h1, h2 => by
    simp only [strLt] at h1 h2 ⊢
    by_cases hab : a < b
    · by_cases hbc : b < c
      · rw [if_pos (lt_trans hab hbc)]
      · rw [if_neg hbc] at h2
        by_cases hcb : c < b
        · rw [if_pos hcb] at h2
          exact absurd h2 (by simp)
        · rw [if_neg hcb] at h2
          have hbceq : b = c := le_antisymm (not_lt.mp hcb) (not_lt.mp hbc)
          rw [if_pos (by rw [← hbceq]; exact hab)]
    · rw [if_neg hab] at h1
      by_cases hba : b < a
      · rw [if_pos hba] at h1
        exact absurd h1 (by simp)
      · rw [if_neg hba] at h1
        have habeq : a = b := le_antisymm (not_lt.mp hba) (not_lt.mp hab)
        subst habeq
        by_cases hac : a < c
        · rw [if_pos hac]
        · rw [if_neg hac] at h2 ⊢
          by_cases hca : c < a
          · rw [if_pos hca] at h2
            exact absurd h2 (by simp)
          · rw [if_neg hca] at h2 ⊢
            exact strLt_trans as bs cs h1 h2

theorem strLt_conn : ∀ a b : List Char, strLt a b = false → strLt b a = false → a = b
  | [], [], _, _ => rfl
  | [], _ :: _, h1, _ => by simp [strLt] at h1
  | _ :: _, [], _, h2 => by simp [strLt] at h2
  | a :: as, b :: bs, h1, h2 => by
    simp only [strLt] at h1 h2
    by_cases hab : a < b
    · rw [if_pos hab] at h1
      exact absurd h1 (by simp)
    · rw [if_neg hab] at h1
      by_cases hba : b < a
      · rw [if_pos hba] at h2
        exact absurd h2 (by simp)
      · rw [if_neg hba] at h1
        rw [if_neg hba, if_neg hab] at h2
        have hc : a = b := le_antisymm (not_lt.mp hba) (not_lt.mp hab)
        rw [hc, strLt_conn as bs h1 h2]

theorem string_eq_of_data_eq {s t : String} (h : s.data = t.data) : s = t := by
  cases s
  cases t
  simp_all

theorem taskLt_irrefl (a : Task) : taskLt a a = false := by
  simp only [taskLt]
  rw [if_neg (lt_irrefl a.priority), if_neg (lt_irrefl a.priority),
    if_neg (by rw [strLt_irrefl]; simp), if_neg (by rw [strLt_irrefl]; simp)]
  exact strLt_irrefl a.testGoal.data

theorem taskLt_asymm (a b : Task) (h : taskLt a b = true) : taskLt b a = false := by
  simp only [taskLt] at h ⊢
  by_cases hp : a.priority < b.priority
  · rw [if_neg (lt_asymm hp), if_pos hp]
  · rw [if_neg hp] at h
    by_cases hq : b.priority < a.priority
    · rw [if_pos hq] at h
      exact absurd h (by simp)
    · rw [if_neg hq] at h
      rw [if_neg hq, if_neg hp]
      by_cases he : strLt a.pythonExec.data b.pythonExec.data = true
      · rw [if_pos he] at h
        rw [if_neg (by rw [strLt_asymm _ _ he]; simp), if_pos he]
      · rw [if_neg he] at h
        by_cases hf : strLt b.pythonExec.data a.pythonExec.data = true
        · rw [if_pos hf] at h
          exact absurd h (by simp)
        · rw [if_neg hf] at h
          rw [if_neg hf, if_neg he]
          rw [strLt_asymm _ _ h]

theorem taskLt_trans (a b c : Task)
    (h1 : taskLt a b = true) (h2 : taskLt b c = true) : taskLt a c = true := by
  simp only [taskLt] at h1 h2 ⊢
  by_cases hab : a.priority < b.priority
  · by_cases hbc : b.priority < c.priority
    · rw [if_pos (lt_trans hab hbc)]
    · rw [if_neg hbc] at h2
      by_cases hcb : c.priority < b.priority
      · rw [if_pos hcb] at h2
        exact absurd h2 (by simp)
      · rw [if_neg hcb] at h2
        have hbceq : b.priority = c.priority := le_antisymm (not_lt.mp hcb) (not_lt.mp hbc)
        rw [if_pos (by rw [← hbceq]; exact hab)]
  · rw [if_neg hab] at h1
    by_cases hba : b.priority < a.priority
    · rw [if_pos hba] at h1
      exact absurd h1 (by simp)
    · rw [if_neg hba] at h1
      have hpeq : a.priority = b.priority := le_antisymm (not_lt.mp hba) (not_lt.mp hab)
      by_cases hbc : b.priority < c.priority
      · rw [if_pos (by rw [hpeq]; exact hbc)]
      · rw [if_neg hbc] at h2
        by_cases hcb : c.priority < b.priority
        · rw [if_pos hcb] at h2
          exact absurd h2 (by simp)
        · rw [if_neg hcb] at h2
          have hqeq : b.priority = c.priority := le_antisymm (not_lt.mp hcb) (not_lt.mp hbc)
          have hacp : ¬ a.priority < c.priority := by
            rw [hpeq, hqeq]
            exact lt_irrefl _
          have hcap : ¬ c.priority < a.priority := by
            rw [hpeq, hqeq]
            exact lt_irrefl _
          rw [if_neg hacp, if_neg hcap]
          by_cases he1 : strLt a.pythonExec.data b.pythonExec.data = true
          · by_cases he2 : strLt b.pythonExec.data c.pythonExec.data = true
            · rw [if_pos (strLt_trans _ _ _ he1 he2)]
            · rw [if_neg he2] at h2
              by_cases he3 : strLt c.pythonExec.data b.pythonExec.data = true
              · rw [if_pos he3] at h2
                exact absurd h2 (by simp)
              · rw [if_neg he3] at h2
                have hdeq : b.pythonExec.data = c.pythonExec.data :=
                  strLt_conn _ _ (by simpa using he2) (by simpa using he3)
                rw [if_pos (by rw [← hdeq]; exact he1)]
          · rw [if_neg he1] at h1
            by_cases he4 : strLt b.pythonExec.data a.pythonExec.data = true
            · rw [if_pos he4] at h1
              exact absurd h1 (by simp)
            · rw [if_neg he4] at h1
              have heeq : a.pythonExec.data = b.pythonExec.data :=
                strLt_conn _ _ (by simpa using he1) (by simpa using he4)
              by_cases he2 : strLt b.pythonExec.data c.pythonExec.data = true
              · rw [if_pos (by rw [heeq]; exact he2)]
              · rw [if_neg he2] at h2
                by_cases he3 : strLt c.pythonExec.data b.pythonExec.data = true
                · rw [if_pos he3] at h2
                  exact absurd h2 (by simp)
                · rw [if_neg he3] at h2
                  rw [if_neg (by rw [heeq]; exact he2),
                    if_neg (by rw [heeq]; exact he3)]
                  exact strLt_trans _ _ _ h1 h2

theorem taskLt_conn (a b : Task)
    (h1 : taskLt a b = false) (h2 : taskLt b a = false) : a = b := by
  simp only [taskLt] at h1 h2
  by_cases hab : a.priority < b.priority
  · rw [if_pos hab] at h1
    exact absurd h1 (by simp)
  · rw [if_neg hab] at h1
    by_cases hba : b.priority < a.priority
    · rw [if_pos hba] at h2
      exact absurd h2 (by simp)
    · rw [if_neg hba] at h1
      rw [if_neg hba, if_neg hab] at h2
      have hpeq : a.priority = b.priority := le_antisymm (not_lt.mp hba) (not_lt.mp hab)
      by_cases he1 : strLt a.pythonExec.data b.pythonExec.data = true
      · rw [if_pos he1] at h1
        exact absurd h1 (by simp)
      · rw [if_neg he1] at h1
        by_cases he2 : strLt b.pythonExec.data a.pythonExec.data = true
        · rw [if_pos he2] at h2
          exact absurd h2 (by simp)
        · rw [if_neg he2] at h1
          rw [if_neg he2, if_neg he1] at h2
          have heeq : a.pythonExec = b.pythonExec :=
            string_eq_of_data_eq (strLt_conn _ _ (by simpa using he1) (by simpa using he2))
          have hgeq : a.testGoal = b.testGoal :=
            string_eq_of_data_eq (strLt_conn _ _ h1 h2)
          cases a
          cases b
          simp only [Task.mk.injEq]
          exact ⟨hpeq, heeq, hgeq⟩

theorem popOrEmpty_none : ∀ q : List Task, popOrEmpty q = none ↔ q = []
  | [] => by simp [popOrEmpty]
  | t :: ts => by
    cases h2 : popOrEmpty ts with
    | none => simp [popOrEmpty, h2]
    | some p =>
      obtain ⟨m, r⟩ := p
      by_cases hlt : taskLt m t = true
      · simp only [popOrEmpty, h2]
        rw [if_pos hlt]
        simp
      · simp only [popOrEmpty, h2]
        rw [if_neg hlt]
        simp

theorem popOrEmpty_length : ∀ (q : List Task) (m : Task) (r : List Task),
    popOrEmpty q = some (m, r) → q.length = r.length + 1
  | [], _, _, h => by simp [popOrEmpty] at h
  | t :: ts, m, r, h => by
    cases h2 : popOrEmpty ts with
    | none =>
      have hts : ts = [] := (popOrEmpty_none ts).mp h2
      subst hts
      simp only [popOrEmpty] at h
      simp only [Option.some.injEq, Prod.mk.injEq] at h
      rw [← h.2]
      simp
    | some p =>
      obtain ⟨m', r'⟩ := p
      simp only [popOrEmpty, h2] at h
      by_cases hlt : taskLt m' t = true
      · rw [if_pos hlt] at h
        simp only [Option.some.injEq, Prod.mk.injEq] at h
        have ih := popOrEmpty_length ts m' r' h2
        rw [← h.2]
        simp [ih]
      · rw [if_neg hlt] at h
        simp only [Option.some.injEq, Prod.mk.injEq] at h
        rw [← h.2]
        simp

theorem popOrEmpty_mem : ∀ (q : List Task) (m : Task) (r : List Task),
    popOrEmpty q = some (m, r) → m ∈ q ∧ ∀ x ∈ r, x ∈ q
  | [], _, _, h => by simp [popOrEmpty] at h
  | t :: ts, m, r, h => by
    cases h2 : popOrEmpty ts with
    | none =>
      simp only [popOrEmpty, h2] at h
      simp only [Option.some.injEq, Prod.mk.injEq] at h
      constructor
      · rw [← h.1]
        exact List.mem_cons_self t ts
      · intro x hx
        rw [← h.2] at hx
        simp at hx
    | some p =>
      obtain ⟨m', r'⟩ := p
      simp only [popOrEmpty, h2] at h
      have ih := popOrEmpty_mem ts m' r' h2
      by_cases hlt : taskLt m' t = true
      · rw [if_pos hlt] at h
        simp only [Option.some.injEq, Prod.mk.injEq] at h
        constructor
        · rw [← h.1]
          exact List.mem_cons_of_mem t ih.1
        · intro x hx
          rw [← h.2] at hx
          rcases List.mem_cons.mp hx with hx | hx
          · rw [hx]
            exact List.mem_cons_self t ts
          · exact List.mem_cons_of_mem t (ih.2 x hx)
      · rw [if_neg hlt] at h
        simp only [Option.some.injEq, Prod.mk.injEq] at h
        constructor
        · rw [← h.1]
          exact List.mem_cons_self t ts
        · intro x hx
          rw [← h.2] at hx
          exact List.mem_cons_of_mem t hx

theorem popOrEmpty_min : ∀ (q : List Task) (m : Task) (r : List Task),
    popOrEmpty q = some (m, r) → ∀ x ∈ q, taskLt x m = false
  | [], _, _, h => by simp [popOrEmpty] at h
  | t :: ts, m, r, h => by
    cases h2 : popOrEmpty ts with
    | none =>
      have hts : ts = [] := (popOrEmpty_none ts).mp h2
      subst hts
      simp only [popOrEmpty] at h
      simp only [Option.some.injEq, Prod.mk.injEq] at h
      intro x hx
      simp only [List.mem_singleton] at hx
      rw [hx, ← h.1]
      exact taskLt_irrefl t
    | some p =>
      obtain ⟨m', r'⟩ := p
      simp only [popOrEmpty, h2] at h
      have ih := popOrEmpty_min ts m' r' h2
      by_cases hlt : taskLt m' t = true
      · rw [if_pos hlt] at h
        simp only [Option.some.injEq, Prod.mk.injEq] at h
        intro x hx
        rcases List.mem_cons.mp hx with hx | hx
        · rw [hx, ← h.1]
          exact taskLt_asymm m' t hlt
        · rw [← h.1]
          exact ih x hx
      · rw [if_neg hlt] at h
        simp only [Option.some.injEq, Prod.mk.injEq] at h
        intro x hx
        rcases List.mem_cons.mp hx with hx | hx
        · rw [hx, ← h.1]
          exact taskLt_irrefl t
        · rw [← h.1]
          by_cases hxt : taskLt x t = true
          · by_cases hm't : taskLt t m' = true
            · have hxm' := taskLt_trans x t m' hxt hm't
              exact absurd (ih x hx) (by simp [hxm'])
            · have heq : t = m' :=
                taskLt_conn t m' (by simpa using hm't) (by simpa using hlt)
              rw [← heq] at ih
              exact absurd hxt (by simp [ih x hx])
          · simpa using hxt

theorem drainCount_mem : ∀ (n : Nat) (q : List Task) (x : Task),
    x ∈ drainCount n q → x ∈ q
  | 0, _, _, h => by simp [drainCount] at h
  | Nat.succ n, q, x, h => by
    cases h2 : popOrEmpty q with
    | none =>
      simp only [drainCount, h2] at h
      simp at h
    | some p =>
      obtain ⟨m, r⟩ := p
      simp only [drainCount, h2] at h
      rcases List.mem_cons.mp h with hx | hx
      · rw [hx]
        exact (popOrEmpty_mem q m r h2).1
      · exact (popOrEmpty_mem q m r h2).2 x (drainCount_mem n r x hx)

theorem drainCount_chain : ∀ (n : Nat) (q : List Task),
    List.Chain' (fun a b => taskLt b a = false) (drainCount n q)
  | 0, _ => List.chain'_nil
  | Nat.succ n, q => by
    cases h2 : popOrEmpty q with
    | none =>
      simp only [drainCount, h2]
      exact List.chain'_nil
    | some p =>
      obtain ⟨m, r⟩ := p
      simp only [drainCount, h2]
      refine List.chain'_cons'.mpr ⟨?_, drainCount_chain n r⟩
      intro y hy
      have hyr : y ∈ r := drainCount_mem n r y (List.mem_of_mem_head? hy)
      exact popOrEmpty_min q m r h2 y ((popOrEmpty_mem q m r h2).2 y hyr)

theorem taskLt_false_priority_le (a b : Task) (h : taskLt b a = false) :
    a.priority ≤ b.priority := by
  by_cases hb : b.priority < a.priority
  · have hT : taskLt b a = true := by
      simp only [taskLt]
      rw [if_pos hb]
    rw [hT] at h
    exact absurd h (by simp)
  · exact not_lt.mp hb

/-- Claim C1 (amended): a single consumer draining the populated queue receives
the tasks in non-decreasing priority order, but equal-priority ties are broken
by Python's comparison of the `(python_exec, test_goal)` tuple (code-point
lexicographic), not by insertion order: the pushed tuples carry no insertion
sequence number. -/
theorem taskQueue_pop_order (q : List Task) :
    List.Chain' (fun a b => a.priority ≤ b.priority) (drain q) ∧
    List.Chain' (fun a b => taskLt b a = false) (drain q) := by
  have h := drainCount_chain q.length q
  exact ⟨List.Chain'.imp (fun a b hab => taskLt_false_priority_le a b hab) h, h⟩

/-- Claim C1 counterexample: two equal-priority tasks pushed in the order
`(100, ("python3", "b"))` then `(100, ("python3", "a"))` are popped in the
opposite order, because the tie is broken by the string comparison of the
`(python_exec, test_goal)` pair, not by insertion sequence. -/
theorem taskQueue_pop_order_counterexample :
    drain [⟨100, "python3", "b"⟩, ⟨100, "python3", "a"⟩] =
      [⟨100, "python3", "a"⟩, ⟨100, "python3", "b"⟩] ∧
    (⟨100, "python3", "b"⟩ : Task).priority = (⟨100, "python3", "a"⟩ : Task).priority ∧
    (⟨100, "python3", "b"⟩ : Task) ≠ ⟨100, "python3", "a"⟩ := by
  refine ⟨by decide, rfl, by decide⟩

/-! ## Skip-marker pattern (`run_individual_python_test` lines 147-151)

The success branch decodes the captured lines and keeps those where
`re.search(r'test_.* \(pyspark\..*\) ... (skip|SKIP)', line)` finds a match.
In that pattern the three dots between `\) ` and the space are *unescaped*
regex metacharacters: each matches any character except a newline.  The
matcher below embeds exactly this pattern: `litPrefix` consumes the pattern's
literal runs, `gapThen` realises `.*LIT` by trying every split (so the Bool
is precisely "a match exists"), `skipTail` realises `... (skip|SKIP)`, and
`skipSearch` realises `re.search` by trying every start position. -/

/-- Consume a literal run of pattern characters from the head of `s`,
returning the remainder. -/
def litPrefix : List Char → List Char → Option (List Char)
  | [], s => some s
  | _ :: _, [] => none
  | c :: cs, x :: xs => if x = c then litPrefix cs xs else none

/-- The pattern tail `... (skip|SKIP)` after the literal `) ` was consumed:
any three non-newline characters, one space, then `skip` or `SKIP`. -/
def skipTail : List Char → Bool
  | c1 :: c2 :: c3 :: c4 :: rest =>
    decide (c1 ≠ '\n') && decide (c2 ≠ '\n') && decide (c3 ≠ '\n') &&
      decide (c4 = ' ') &&
      (List.isPrefixOf ("skip".data) rest || List.isPrefixOf ("SKIP".data) rest)
  | _ => false

/-- The regex segment `.*` followed by the literal `lit` and continuation `k`:
skip any run of non-newline characters, consume `lit`, continue with `k`;
every split point is tried. -/
def gapThen (lit : List Char) (k : List Char → Bool) : List Char → Bool
  | [] =>
    match litPrefix lit [] with
    | some r => k r
    | none => false
  | c :: cs =>
    (match litPrefix lit (c :: cs) with
     | some r => k r
     | none => false) ||
      (decide (c ≠ '\n') && gapThen lit k cs)

/-- The whole pattern anchored at the current position: `test_`, then `.*`,
then ` (pyspark.`, then `.*`, then `) `, then `skipTail`. -/
def matchFrom (s : List Char) : Bool :=
  match litPrefix ("test_".data) s with
  | none => false
  | some r => gapThen (" (pyspark.".data) (gapThen (") ".data) skipTail) r

/-- `re.search` of the skip pattern over a decoded line: the anchored match is
tried at every start position. -/
def skipSearch : List Char → Bool
  | [] => matchFrom []
  | c :: cs => matchFrom (c :: cs) || skipSearch cs

/-- Lines 148-150: `skipped_tests = list(filter(lambda line: re.search(...),
decoded_lines))`. -/
def skippedTests (decoded : List String) : List String :=
  decoded.filter (fun line => skipSearch line.data)

/-- Whether `s` contains the literal character sequence `lit` (used to state
the frozen claim's "literal three-dot sequence" condition). -/
def containsLit (lit : List Char) : List Char → Bool
  | [] => (litPrefix lit []).isSome
  | c :: cs => (litPrefix lit (c :: cs)).isSome || containsLit lit cs

/-- No character of `l` is a newline (regex `.` does not match a newline). -/
def NoNL (l : List Char) : Prop := ∀ c ∈ l, c ≠ '\n'

/-- The skip pattern, restated declaratively as the (amended) specification
reads: some position is followed by the literal `test_`, a newline-free run,
the literal ` (pyspark.`, a newline-free run, the literal `) `, any three
non-newline characters, a space, and then `skip` or `SKIP`. -/
def SkipMarker (s : List Char) : Prop :=
  ∃ p a b c tail rest,
    s = p ++ ("test_".data) ++ a ++ (" (pyspark.".data) ++ b ++ (") ".data) ++
        c ++ [' '] ++ tail ++ rest ∧
    NoNL a ∧ NoNL b ∧ NoNL c ∧ c.length = 3 ∧
    (tail = "skip".data ∨ tail = "SKIP".data)

theorem litPrefix_iff : ∀ (lit s r : List Char),
    litPrefix lit s = some r ↔ s = lit ++ r
  | [], s, r => by simp [litPrefix, eq_comm]
  | c :: cs, [], r => by simp [litPrefix]
  | c :: cs, x :: xs, r => by
    simp only [litPrefix]
    by_cases hx : x = c
    · rw [if_pos hx]
      rw [litPrefix_iff cs xs r]
      subst hx
      simp
    · rw [if_neg hx]
      simp only [List.cons_append, List.cons.injEq]
      constructor
      · intro h
        simp at h
      · intro h
        exact absurd h.1 hx

theorem isPrefixOf_iff_exists {la lb : List Char} :
    List.isPrefixOf la lb = true ↔ ∃ t, lb = la ++ t := by
  rw [List.isPrefixOf_iff_prefix]
  constructor
  · intro h
    obtain ⟨t, ht⟩ := h
    exact ⟨t, ht.symm⟩
  · intro h
    obtain ⟨t, ht⟩ := h
    exact ⟨t, ht.symm⟩

theorem skipTail_iff (s : List Char) :
    skipTail s = true ↔
      ∃ c tail rest, s = c ++ [' '] ++ tail ++ rest ∧ NoNL c ∧ c.length = 3 ∧
        (tail = "skip".data ∨ tail = "SKIP".data) := by
  constructor
  · intro h
    match s, h with
    | c1 :: c2 :: c3 :: c4 :: rest, h => ?_
    simp only [skipTail, Bool.and_eq_true, Bool.or_eq_true, decide_eq_true_eq] at h
    obtain ⟨⟨⟨⟨h1, h2⟩, h3⟩, h4⟩, h5⟩ := h
    rcases h5 with h5 | h5
    · obtain ⟨t, ht⟩ := isPrefixOf_iff_exists.mp h5
      refine ⟨[c1, c2, c3], "skip".data, t, ?_, ?_, rfl, Or.inl rfl⟩
      · rw [h4, ht]
        simp
      · intro x hx
        rcases List.mem_cons.mp hx with rfl | hx
        · exact h1
        rcases List.mem_cons.mp hx with rfl | hx
        · exact h2
        rcases List.mem_cons.mp hx with rfl | hx
        · exact h3
        · simp at hx
    · obtain ⟨t, ht⟩ := isPrefixOf_iff_exists.mp h5
      refine ⟨[c1, c2, c3], "SKIP".data, t, ?_, ?_, rfl, Or.inr rfl⟩
      · rw [h4, ht]
        simp
      · intro x hx
        rcases List.mem_cons.mp hx with rfl | hx
        · exact h1
        rcases List.mem_cons.mp hx with rfl | hx
        · exact h2
        rcases List.mem_cons.mp hx with rfl | hx
        · exact h3
        · simp at hx
  · intro h
    obtain ⟨c, tail, rest, hs, hnl, hlen, htail⟩ := h
    obtain ⟨x, y, z, hc⟩ := List.length_eq_three.mp hlen
    subst hc
    subst hs
    simp only [List.cons_append, List.nil_append, skipTail, Bool.and_eq_true,
      Bool.or_eq_true, decide_eq_true_eq]
    refine ⟨⟨⟨⟨hnl x (by simp), hnl y (by simp)⟩, hnl z (by simp)⟩, trivial⟩, ?_⟩
    rcases htail with h | h
    · subst h
      exact Or.inl (isPrefixOf_iff_exists.mpr ⟨rest, rfl⟩)
    · subst h
      exact Or.inr (isPrefixOf_iff_exists.mpr ⟨rest, rfl⟩)

theorem gapThen_iff (lit : List Char) (k : List Char → Bool) :
    ∀ s : List Char, gapThen lit k s = true ↔
      ∃ g r, s = g ++ lit ++ r ∧ NoNL g ∧ k r = true
  | [] => by
    cases hl : litPrefix lit [] with
    | none =>
      simp only [gapThen, hl]
      constructor
      · intro h
        exact absurd h (by simp)
      · intro h
        obtain ⟨g, r, hs, _, hk⟩ := h
        have hg : g = [] ∧ lit ++ r = [] := by
          constructor
          · cases g with
            | nil => rfl
            | cons a as => simp at hs
          · cases g with
            | nil => simpa using hs.symm
            | cons a as => simp at hs
        have hlit : lit = [] := List.append_eq_nil.mp hg.2 |>.1
        have hr : r = [] := List.append_eq_nil.mp hg.2 |>.2
        rw [hlit] at hl
        simp [litPrefix] at hl
    | some r0 =>
      have h0 : ([] : List Char) = lit ++ r0 := (litPrefix_iff lit [] r0).mp hl
      have hlit : lit = [] := (List.append_eq_nil.mp h0.symm).1
      have hr0 : r0 = [] := (List.append_eq_nil.mp h0.symm).2
      subst hlit
      subst hr0
      simp only [gapThen, hl]
      constructor
      · intro h
        exact ⟨[], [], by simp, by intro c hc; simp at hc, h⟩
      · intro h
        obtain ⟨g, r, hs, _, hk⟩ := h
        have hg : g = [] := by
          cases g with
          | nil => rfl
          | cons a as => simp at hs
        subst hg
        have hr : r = [] := by simpa using hs.symm
        subst hr
        exact hk
  | c :: cs => by
    simp only [gapThen, Bool.or_eq_true, Bool.and_eq_true, decide_eq_true_eq]
    constructor
    · intro h
      rcases h with h | ⟨hc, h⟩
      · cases hl : litPrefix lit (c :: cs) with
        | none => rw [hl] at h; exact absurd h (by simp)
        | some r0 =>
          rw [hl] at h
          exact ⟨[], r0, by simpa using (litPrefix_iff lit (c :: cs) r0).mp hl,
            by intro x hx; simp at hx, h⟩
      · obtain ⟨g, r, hs, hnl, hk⟩ := (gapThen_iff lit k cs).mp h
        refine ⟨c :: g, r, by simp [hs], ?_, hk⟩
        intro x hx
        rcases List.mem_cons.mp hx with hx | hx
        · rw [hx]; exact hc
        · exact hnl x hx
    · intro h
      obtain ⟨g, r, hs, hnl, hk⟩ := h
      cases g with
      | nil =>
        left
        have : litPrefix lit (c :: cs) = some r :=
          (litPrefix_iff lit (c :: cs) r).mpr (by simpa using hs)
        rw [this]
        exact hk
      | cons a as =>
        right
        simp only [List.cons_append, List.cons.injEq] at hs
        refine ⟨hs.1 ▸ hnl a (by simp), ?_⟩
        exact (gapThen_iff lit k cs).mpr ⟨as, r, hs.2, fun x hx => hnl x (by simp [hx]), hk⟩

theorem matchFrom_iff (s : List Char) :
    matchFrom s = true ↔
      ∃ a b c tail rest,
        s = ("test_".data) ++ a ++ (" (pyspark.".data) ++ b ++ (") ".data) ++
            c ++ [' '] ++ tail ++ rest ∧
        NoNL a ∧ NoNL b ∧ NoNL c ∧ c.length = 3 ∧
        (tail = "skip".data ∨ tail = "SKIP".data) := by
  constructor
  · intro h
    simp only [matchFrom] at h
    cases hl : litPrefix ("test_".data) s with
    | none => rw [hl] at h; exact absurd h (by simp)
    | some r1 =>
      rw [hl] at h
      have hs1 : s = ("test_".data) ++ r1 := (litPrefix_iff _ s r1).mp hl
      obtain ⟨a, r2, hr1, hna, hk1⟩ := (gapThen_iff _ _ r1).mp h
      obtain ⟨b, r3, hr2, hnb, hk2⟩ := (gapThen_iff _ _ r2).mp hk1
      obtain ⟨c, tail, rest, hr3, hnc, hlen, htail⟩ := (skipTail_iff r3).mp hk2
      refine ⟨a, b, c, tail, rest, ?_, hna, hnb, hnc, hlen, htail⟩
      rw [hs1, hr1, hr2, hr3]
      simp [List.append_assoc]
  · intro h
    obtain ⟨a, b, c, tail, rest, hs, hna, hnb, hnc, hlen, htail⟩ := h
    simp only [matchFrom]
    have hl : litPrefix ("test_".data) s =
        some (a ++ (" (pyspark.".data) ++ b ++ (") ".data) ++ c ++ [' '] ++ tail ++ rest) := by
      rw [litPrefix_iff]
      rw [hs]
      simp [List.append_assoc]
    rw [hl]
    refine (gapThen_iff _ _ _).mpr
      ⟨a, b ++ (") ".data) ++ c ++ [' '] ++ tail ++ rest, by simp [List.append_assoc], hna, ?_⟩
    refine (gapThen_iff _ _ _).mpr
      ⟨b, c ++ [' '] ++ tail ++ rest, by simp [List.append_assoc], hnb, ?_⟩
    exact (skipTail_iff _).mpr ⟨c, tail, rest, by simp [List.append_assoc], hnc, hlen, htail⟩

theorem skipSearch_iff : ∀ s : List Char,
    skipSearch s = true ↔ ∃ p r, s = p ++ r ∧ matchFrom r = true
  | [] => by
    simp only [skipSearch]
    constructor
    · intro h
      exact ⟨[], [], rfl, h⟩
    · intro h
      obtain ⟨p, r, hs, hm⟩ := h
      have hr : r = [] := (List.append_eq_nil.mp hs.symm).2
      rw [hr] at hm
      exact hm
  | c :: cs => by
    simp only [skipSearch, Bool.or_eq_true]
    constructor
    · intro h
      rcases h with h | h
      · exact ⟨[], c :: cs, rfl, h⟩
      · obtain ⟨p, r, hs, hm⟩ := (skipSearch_iff cs).mp h
        exact ⟨c :: p, r, by simp [hs], hm⟩
    · intro h
      obtain ⟨p, r, hs, hm⟩ := h
      cases p with
      | nil =>
        left
        have hr : r = c :: cs := by simpa using hs.symm
        rw [hr] at hm
        exact hm
      | cons a as =>
        right
        simp only [List.cons_append, List.cons.injEq] at hs
        exact (skipSearch_iff cs).mpr ⟨as, r, hs.2, hm⟩

theorem skipSearch_iff_skipMarker (s : List Char) :
    skipSearch s = true ↔ SkipMarker s := by
  rw [skipSearch_iff]
  constructor
  · intro h
    obtain ⟨p, r, hs, hm⟩ := h
    obtain ⟨a, b, c, tail, rest, hr, hna, hnb, hnc, hlen, htail⟩ := (matchFrom_iff r).mp hm
    refine ⟨p, a, b, c, tail, rest, ?_, hna, hnb, hnc, hlen, htail⟩
    rw [hs, hr]
    simp [List.append_assoc]
  · intro h
    obtain ⟨p, a, b, c, tail, rest, hs, hna, hnb, hnc, hlen, htail⟩ := h
    refine ⟨p, ("test_".data) ++ a ++ (" (pyspark.".data) ++ b ++ (") ".data) ++
      c ++ [' '] ++ tail ++ rest, by rw [hs]; simp [List.append_assoc], ?_⟩
    exact (matchFrom_iff _).mpr ⟨a, b, c, tail, rest, by simp [List.append_assoc],
      hna, hnb, hnc, hlen, htail⟩

/-- Claim C2 (amended): a captured output line is collected as a skipped test
iff it contains `test_`, then a newline-free run, then ` (pyspark.`, then a
newline-free run, then `) `, then any three non-newline characters, a space,
and `skip` or `SKIP` (exactly those two casings).  The three dots of the
source pattern are unescaped regex metacharacters, so they match any three
characters, not the literal sequence `... `. -/
theorem skip_line_classification (decoded : List String) (line : String) :
    line ∈ skippedTests decoded ↔ line ∈ decoded ∧ SkipMarker line.data := by
  rw [skippedTests, List.mem_filter]
  exact and_congr_right (fun _ => skipSearch_iff_skipMarker line.data)

/-- Claim C2 counterexample: the code collects the line
`test_a (pyspark.b) xyz skip` although it contains no literal `... `
sequence at all, refuting the claim that only lines with the literal
three-dot sequence are collected. -/
theorem skip_line_classification_counterexample :
    skipSearch (("test_a (pyspark.b) xyz skip" : String).data) = true ∧
    containsLit (("... " : String).data) (("test_a (pyspark.b) xyz skip" : String).data)
      = false := by
  constructor
  · decide
  · decide

/-! ## Isolated directories (`run_individual_python_test` lines 82-90)

Paths are modelled as lists of path components (`os.path.join(p, name)` is
`p ++ [name]`), the filesystem's `os.path.isdir` as a Bool predicate on
paths, and the stream of `str(uuid.uuid4())` draws as `names : Nat → String`.
The unbounded `while` loops are given fuel; `none` models non-termination
within the fuel. -/

/-- Lines 82-85: `tmp_dir = os.path.join(target_dir, str(uuid.uuid4()))`;
`while os.path.isdir(tmp_dir): tmp_dir = os.path.join(target_dir,
str(uuid.uuid4()))`.  On every retry the fresh name is rejoined to
`target_dir`. -/
def tmpDirLoop (isDir : List String → Bool) (targetDir : List String)
    (names : Nat → String) : Nat → Nat → Option (List String)
  | 0, _ => none
  | Nat.succ fuel, i =>
    if isDir (targetDir ++ [names i]) then tmpDirLoop isDir targetDir names fuel (i + 1)
    else some (targetDir ++ [names i])

/-- Lines 87-89: `metastore_dir = os.path.join(tmp_dir, str(uuid.uuid4()))`;
`while os.path.isdir(metastore_dir): metastore_dir =
os.path.join(metastore_dir, str(uuid.uuid4()))`.  On a collision the fresh
name is joined onto the *colliding path itself*, not back onto `tmp_dir`. -/
def metastoreLoop (isDir : List String → Bool) (names : Nat → String) :
    Nat → List String → Nat → Option (List String)
  | 0, _, _ => none
  | Nat.succ fuel, cur, i =>
    if isDir cur then metastoreLoop isDir names fuel (cur ++ [names i]) (i + 1)
    else some cur

/-- The nested (metastore) directory path chosen for `tmp_dir = tmpDir`. -/
def acquireMetastoreDir (isDir : List String → Bool) (tmpDir : List String)
    (names : Nat → String) (fuel : Nat) : Option (List String) :=
  metastoreLoop isDir names fuel (tmpDir ++ [names 0]) 1

/-- Claim C3: evaluating the nested-directory code at the failing input — the
first generated name `u0` collides with an existing directory and the second
draw is `u1` — yields `target/tmp/u0/u1`, a grandchild of the working
directory `target/tmp`, not the direct child the specification requires: the
retry line joins the fresh name onto the colliding path instead of
regenerating under `tmp_dir`. -/
theorem metastore_collision_not_direct_child :
    acquireMetastoreDir
        (fun p => decide (p = ["target", "tmp", "u0"]))
        ["target", "tmp"] (fun i => if i = 0 then "u0" else "u1") 2 =
      some ["target", "tmp", "u0", "u1"] ∧
    (["target", "tmp", "u0", "u1"] : List String).length ≠
      (["target", "tmp"] : List String).length + 1 := by
  constructor
  · decide
  · decide

/-! ## TaskRunner (`run_individual_python_test` lines 102-170)

The captured-output scratch file (`tempfile.TemporaryFile()`) holds the
subprocess's merged stdout and stderr as byte lines together with a read
position (a line index): after the subprocess the position is wherever the
writes left it, `seek(0)` resets it to the start, and iterating the file
reads from the position to the end.  Decoding a byte line
(`line.decode("utf-8", "replace")`) is an opaque parameter
`decode : List Nat → String`; the claims do not depend on its internals. -/

/-- The captured-output scratch file: byte lines and the read position. -/
structure OutBuf where
  lines : List (List Nat)
  pos : Nat

/-- The process-wide `SKIPPED_TESTS` map from `(pyspark_python, test_name)`
to the stored list of skipped lines. -/
def Registry := String × String → Option (List String)

/-- The registry at process start (`Manager().dict()`): empty. -/
def emptyRegistry : Registry := fun _ => none

/-- `SKIPPED_TESTS[key] = value` (a single dict assignment). -/
def registryInsert (reg : Registry) (key : String × String) (v : List String) :
    Registry :=
  fun k => if k = key then some v else reg k

/-- How one `run_individual_python_test` call ends: returning normally, or
killing the whole process (`os._exit(c)` — the call never returns). -/
inductive TEnd where
  | normal : TEnd
  | halted : Int → TEnd
deriving DecidableEq

/-- What the failure branch (lines 122-140) leaves behind: the log-file
contents (`none` = the file does not exist), the console-echoed lines, the
final `print_red` summary naming the test and the executable, and the
`os._exit` status. -/
structure FailReport where
  logFile : Option (List Nat)
  echoed : List String
  summary : Option (String × String)
  code : Int

/-- `re.match('[0-9]+', decoded_line)`: the pattern is anchored at the start,
so a match exists iff the first character is a decimal digit. -/
def digitRun : List Char → Bool
  | [] => false
  | c :: _ => decide ('0' ≤ c) && decide (c ≤ '9')

/-- Lines 129-132: re-emit every decoded line that does not match `[0-9]+`
at its start. -/
def echoLines (decoded : List String) : List String :=
  decoded.filter (fun line => !(digitRun line.data))

/-- The failure branch's try-block when nothing raises, in source order
(lines 123-133): `per_test_output.seek(0)`; `log_file.writelines(...)` on the
log opened in append mode (`'ab'`, creating it when absent); `seek(0)` again;
echo the filtered lines; then the `finally` block prints the summary and
calls `os._exit(-1)`. -/
def failureReportOk (decode : List Nat → String) (log : Option (List Nat))
    (buf : OutBuf) (testName pythonExec : String) : FailReport :=
  let b1 : OutBuf := ⟨buf.lines, 0⟩
  let log2 := some ((log.getD []) ++ (b1.lines.drop b1.pos).flatten)
  let b2 : OutBuf := ⟨b1.lines, b1.lines.length⟩
  let b3 : OutBuf := ⟨b2.lines, 0⟩
  let echoed := echoLines ((b3.lines.drop b3.pos).map decode)
  ⟨log2, echoed, some (testName, pythonExec), -1⟩

/-- The failure branch including its `except:` case: `reportOk = false` means
some exception was raised while writing the log or echoing, with `plog` and
`pecho` the partial effects already performed before it; the `finally` block
runs either way. -/
def failureReport (decode : List Nat → String) (log : Option (List Nat))
    (buf : OutBuf) (testName pythonExec : String)
    (reportOk : Bool) (plog : List Nat) (pecho : List String) : FailReport :=
  if reportOk then failureReportOk decode log buf testName pythonExec
  else ⟨some ((log.getD []) ++ plog), pecho, some (testName, pythonExec), -1⟩

/-- The success branch's try-block (lines 142-156): `seek(0)`, decode every
captured line, filter by the skip regex, and store the matched lines under
`(pyspark_python, test_name)` iff at least one matched (`skipped_counts > 0`);
the second component is `skipped_counts`. -/
def successScan (decode : List Nat → String) (reg : Registry) (buf : OutBuf)
    (pythonExec testName : String) : Registry × Nat :=
  let b1 : OutBuf := ⟨buf.lines, 0⟩
  let decoded := (b1.lines.drop b1.pos).map decode
  let skipped := skippedTests decoded
  let counts := skipped.length
  if 0 < counts then (registryInsert reg (pythonExec, testName) skipped, counts)
  else (reg, counts)

/-- The inputs of one `run_individual_python_test` call that the outside
world decides: whether `subprocess.Popen(...).wait()` (or the cleanup around
it) raised, or returned an exit code; whether the failure-reporting try-block
raised; whether the skip-scan try-block raised; the captured output; the
task's executable and goal; and the partial reporting effects on a reporting
exception. -/
structure TaskIn where
  spawn : Except Unit Int
  reportOk : Bool
  scanOk : Bool
  buf : OutBuf
  pythonExec : String
  testName : String
  plog : List Nat
  pecho : List String

/-- What one `run_individual_python_test` call leaves behind. -/
structure RunOut where
  tend : TEnd
  logFile : Option (List Nat)
  reg : Registry
  summary : Option (String × String)

/-- `run_individual_python_test` after the environment set-up (lines
102-170): an exception around spawn/wait exits via `os._exit(1)`; a nonzero
exit code runs the failure branch and exits via `os._exit(-1)`; exit code 0
runs the skip scan, which stores the skipped lines and returns normally —
unless the scan raises, in which case the process exits via `os._exit(-1)`. -/
def runIndividualTest (t : TaskIn) (decode : List Nat → String)
    (log : Option (List Nat)) (reg : Registry) : RunOut :=
  match t.spawn with
  | Except.error _ => ⟨TEnd.halted 1, log, reg, none⟩
  | Except.ok retcode =>
    if retcode ≠ 0 then
      let fo := failureReport decode log t.buf t.testName t.pythonExec
        t.reportOk t.plog t.pecho
      ⟨TEnd.halted fo.code, fo.logFile, reg, fo.summary⟩
    else if t.scanOk then
      ⟨TEnd.normal, log, (successScan decode reg t.buf t.pythonExec t.testName).1, none⟩
    else ⟨TEnd.halted (-1), log, reg, none⟩

/-- `main` lines 251-252: `if os.path.exists(LOG_FILE): os.remove(LOG_FILE)`
at run start. -/
def startupLogFile (f : Option (List Nat)) : Option (List Nat) :=
  if f.isSome then none else f

/-- The workers' execution of the queued tasks (`process_queue`): each task
runs to completion; the first `os._exit` kills the process with that status
and no later task runs. -/
def execTasks (decode : List Nat → String) :
    List TaskIn → Option (List Nat) → Registry → TEnd × Option (List Nat) × Registry
  | [], log, reg => (TEnd.normal, log, reg)
  | t :: ts, log, reg =>
    let r := runIndividualTest t decode log reg
    match r.tend with
    | TEnd.normal => execTasks decode ts r.logFile r.reg
    | TEnd.halted c => (TEnd.halted c, r.logFile, r.reg)

/-- The whole run's process exit status (lines 314-325): the first task halt
wins; otherwise a `KeyboardInterrupt`/`SystemExit` caught around
`task_queue.join()` exits via `sys.exit(-1)`; otherwise the run completes
with status 0. -/
def schedulerStatus (tasks : List TaskIn) (decode : List Nat → String)
    (interrupted : Bool) : Int :=
  match (execTasks decode tasks none emptyRegistry).1 with
  | TEnd.halted c => c
  | TEnd.normal => if interrupted then -1 else 0

/-! ## Claims about the runner, the reporter and the scheduler -/

/-- Claim C4 (amended): an exception inside the skip-detection/recording block
of a successful (exit code 0) task *does* escalate: the `except:` handler at
lines 157-163 calls `os._exit(-1)`, terminating the whole process exactly
like a test failure; only the exception-free scan returns normally. -/
theorem skip_scan_error_halts (t : TaskIn) (decode : List Nat → String)
    (log : Option (List Nat)) (reg : Registry)
    (hspawn : t.spawn = Except.ok 0) (hscan : t.scanOk = false) :
    (runIndividualTest t decode log reg).tend = TEnd.halted (-1) ∧
    (runIndividualTest t decode log reg).tend ≠ TEnd.normal := by
  have hred : (runIndividualTest t decode log reg).tend = TEnd.halted (-1) := by
    simp [runIndividualTest, hspawn, hscan]
  refine ⟨hred, ?_⟩
  rw [hred]
  decide

/-- Claim C4 counterexample: a concrete successful task (exit code 0) whose
skip scan raises makes the process exit with status -1 instead of continuing:
the run does not survive a skip-detection error. -/
theorem skip_scan_error_counterexample :
    (runIndividualTest ⟨Except.ok 0, true, false, ⟨[], 0⟩, "python3", "pyspark.tests", [], []⟩
        (fun _ => "") none emptyRegistry).tend = TEnd.halted (-1) ∧
    TEnd.halted (-1) ≠ TEnd.normal := by
  constructor
  · rfl
  · decide

/-- Claim C4 witness: the amended claim applied at a concrete task. -/
theorem skip_scan_error_halts_witness :
    (runIndividualTest ⟨Except.ok 0, true, false, ⟨[[10]], 1⟩, "pypy3", "pyspark.ml", [], []⟩
        (fun _ => "x") none emptyRegistry).tend = TEnd.halted (-1) :=
  (skip_scan_error_halts ⟨Except.ok 0, true, false, ⟨[[10]], 1⟩, "pypy3", "pyspark.ml", [], []⟩
    (fun _ => "x") none emptyRegistry rfl rfl).1

/-- Claim C5: for a task exiting 0, with `skipped` the decoded captured lines
matching the skip pattern (in buffer order): when at least one matched, the
registry afterwards maps the task's `(executable, goal)` key to exactly
`skipped` — a sublist of the decoded lines, so the original matched lines in
their original order — and leaves every other key unchanged; when none
matched, the registry is unchanged at every key. -/
theorem skip_registry_contents (decode : List Nat → String) (reg : Registry)
    (buf : OutBuf) (pythonExec testName : String) :
    (skippedTests (buf.lines.map decode) ≠ [] →
      (successScan decode reg buf pythonExec testName).1 (pythonExec, testName) =
        some (skippedTests (buf.lines.map decode)) ∧
      List.Sublist (skippedTests (buf.lines.map decode)) (buf.lines.map decode)) ∧
    (skippedTests (buf.lines.map decode) = [] →
      ∀ k, (successScan decode reg buf pythonExec testName).1 k = reg k) ∧
    (∀ k, k ≠ (pythonExec, testName) →
      (successScan decode reg buf pythonExec testName).1 k = reg k) := by
  have hdrop : (buf.lines.drop 0) = buf.lines := List.drop_zero buf.lines
  refine ⟨?_, ?_, ?_⟩
  · intro hne
    have hpos : 0 < (skippedTests (buf.lines.map decode)).length :=
      List.length_pos.mpr hne
    constructor
    · simp only [successScan, hdrop]
      rw [if_pos hpos]
      simp [registryInsert]
    · exact List.filter_sublist (buf.lines.map decode)
  · intro hnil k
    have hz : ¬ 0 < (skippedTests (buf.lines.map decode)).length := by
      rw [hnil]
      simp
    simp only [successScan, hdrop]
    rw [if_neg hz]
  · intro k hk
    simp only [successScan, hdrop]
    by_cases hpos : 0 < (skippedTests (buf.lines.map decode)).length
    · rw [if_pos hpos]
      simp only [registryInsert]
      rw [if_neg hk]
    · rw [if_neg hpos]

/-- Claim C5 witness: a concrete buffer with exactly one matching line is
stored under the task's key. -/
theorem skip_registry_contents_witness :
    (successScan (fun _ => "test_x (pyspark.a) ... skip") emptyRegistry ⟨[[0]], 1⟩
        "python3" "pyspark.sql").1 ("python3", "pyspark.sql") =
      some ["test_x (pyspark.a) ... skip"] := by
  have h := skip_registry_contents (fun _ => "test_x (pyspark.a) ... skip")
    emptyRegistry ⟨[[0]], 1⟩ "python3" "pyspark.sql"
  have h1 := (h.1 (by decide)).1
  exact h1.trans (by decide)

/-- Every way `run_individual_python_test` can end: a normal return, or
`os._exit(1)` (spawn/wait exception), or `os._exit(-1)` (failure branch or
skip-scan exception). -/
theorem runIndividualTest_tend_cases (t : TaskIn) (decode : List Nat → String)
    (log : Option (List Nat)) (reg : Registry) :
    (runIndividualTest t decode log reg).tend = TEnd.normal ∨
    (runIndividualTest t decode log reg).tend = TEnd.halted 1 ∨
    (runIndividualTest t decode log reg).tend = TEnd.halted (-1) := by
  cases hs : t.spawn with
  | error e =>
    right
    left
    simp [runIndividualTest, hs]
  | ok retcode =>
    by_cases hr : retcode ≠ 0
    · right
      right
      simp only [runIndividualTest, hs]
      rw [if_pos hr]
      cases hro : t.reportOk <;> simp [failureReport, failureReportOk, hro]
    · cases hsc : t.scanOk
      · right
        right
        simp only [runIndividualTest, hs]
        rw [if_neg hr, hsc]
        rfl
      · left
        simp only [runIndividualTest, hs]
        rw [if_neg hr, hsc]
        rfl

/-- The way a call ends does not depend on the log-file or registry state. -/
theorem runIndividualTest_tend_const (t : TaskIn) (decode : List Nat → String)
    (log log' : Option (List Nat)) (reg reg' : Registry) :
    (runIndividualTest t decode log reg).tend =
      (runIndividualTest t decode log' reg').tend := by
  cases hs : t.spawn with
  | error e => simp [runIndividualTest, hs]
  | ok retcode =>
    by_cases hr : retcode ≠ 0
    · simp only [runIndividualTest, hs]
      rw [if_pos hr, if_pos hr]
      cases hro : t.reportOk <;> simp [failureReport, failureReportOk, hro]
    · cases hsc : t.scanOk <;>
        · simp only [runIndividualTest, hs]
          rw [if_neg hr, if_neg hr, hsc]
          simp

theorem execTasks_tend_cases (decode : List Nat → String) :
    ∀ (tasks : List TaskIn) (log : Option (List Nat)) (reg : Registry),
      (execTasks decode tasks log reg).1 = TEnd.normal ∨
      (execTasks decode tasks log reg).1 = TEnd.halted 1 ∨
      (execTasks decode tasks log reg).1 = TEnd.halted (-1)
  | [], _, _ => Or.inl rfl
  | t :: ts, log, reg => by
    rcases runIndividualTest_tend_cases t decode log reg with h | h | h
    · simp only [execTasks, h]
      exact execTasks_tend_cases decode ts _ _
    · right
      left
      simp [execTasks, h]
    · right
      right
      simp [execTasks, h]

theorem execTasks_normal_iff (decode : List Nat → String) :
    ∀ (tasks : List TaskIn) (log : Option (List Nat)) (reg : Registry),
      (execTasks decode tasks log reg).1 = TEnd.normal ↔
        ∀ t ∈ tasks, ∀ (l : Option (List Nat)) (r : Registry),
          (runIndividualTest t decode l r).tend = TEnd.normal
  | [], _, _ => by
    constructor
    · intro _ t ht
      simp at ht
    · intro _
      rfl
  | t :: ts, log, reg => by
    constructor
    · intro h x hx l r
      rcases hcase : (runIndividualTest t decode log reg).tend with _ | c
      · rcases List.mem_cons.mp hx with hx | hx
        · subst hx
          rw [runIndividualTest_tend_const x decode l log r reg]
          exact hcase
        · simp only [execTasks, hcase] at h
          exact (execTasks_normal_iff decode ts _ _).mp h x hx l r
      · simp only [execTasks, hcase] at h
        simp at h
    · intro h
      have ht := h t (List.mem_cons_self t ts) log reg
      simp only [execTasks, ht]
      exact (execTasks_normal_iff decode ts _ _).mpr
        (fun x hx l r => h x (List.mem_cons_of_mem t hx) l r)

/-- Claim C6: the run's exit status is 0 exactly when no interrupt occurred
and every queued task's run ends normally; a spawn/wait exception terminates
the process with status 1; a nonzero subprocess exit code makes the runner
end in `os._exit(-1)` and never return normally; an operator interrupt gives
a nonzero status; and no status outside {0, 1, -1} is produced. -/
theorem process_exit_codes (tasks : List TaskIn) (decode : List Nat → String)
    (interrupted : Bool) :
    (schedulerStatus tasks decode interrupted = 0 ↔
      interrupted = false ∧
        ∀ t ∈ tasks, ∀ (l : Option (List Nat)) (r : Registry),
          (runIndividualTest t decode l r).tend = TEnd.normal) ∧
    (∀ (t : TaskIn) (log : Option (List Nat)) (reg : Registry) (e : Unit),
      t.spawn = Except.error e →
      (runIndividualTest t decode log reg).tend = TEnd.halted 1) ∧
    (∀ (t : TaskIn) (log : Option (List Nat)) (reg : Registry) (r : Int),
      t.spawn = Except.ok r → r ≠ 0 →
      (runIndividualTest t decode log reg).tend = TEnd.halted (-1) ∧
      (runIndividualTest t decode log reg).tend ≠ TEnd.normal) ∧
    (interrupted = true → schedulerStatus tasks decode interrupted ≠ 0) ∧
    (schedulerStatus tasks decode interrupted = 0 ∨
      schedulerStatus tasks decode interrupted = 1 ∨
      schedulerStatus tasks decode interrupted = -1) := by
  refine ⟨?_, ?_, ?_, ?_, ?_⟩
  · constructor
    · intro h
      rcases hcase : (execTasks decode tasks none emptyRegistry).1 with _ | c
      · refine ⟨?_, (execTasks_normal_iff decode tasks none emptyRegistry).mp hcase⟩
        by_contra hi
        have : interrupted = true := by
          cases interrupted
          · exact absurd rfl hi
          · rfl
        rw [schedulerStatus, hcase, this] at h
        simp at h
      · rw [schedulerStatus, hcase] at h
        rcases execTasks_tend_cases decode tasks none emptyRegistry with h2 | h2 | h2 <;>
          rw [hcase] at h2
        · simp at h2
        · simp only [TEnd.halted.injEq] at h2
          rw [h2] at h
          simp at h
        · simp only [TEnd.halted.injEq] at h2
          rw [h2] at h
          simp at h
    · intro h
      have hn := (execTasks_normal_iff decode tasks none emptyRegistry).mpr h.2
      rw [schedulerStatus, hn, h.1]
      simp
  · intro t log reg e he
    simp [runIndividualTest, he]
  · intro t log reg r hok hr
    simp only [runIndividualTest, hok]
    rw [if_pos hr]
    constructor
    · cases hro : t.reportOk <;> simp [failureReport, failureReportOk, hro]
    · cases hro : t.reportOk <;> simp [failureReport, failureReportOk, hro]
  · intro hi
    rw [hi, schedulerStatus]
    rcases execTasks_tend_cases decode tasks none emptyRegistry with h2 | h2 | h2 <;>
      rw [h2] <;> simp
  · rw [schedulerStatus]
    rcases execTasks_tend_cases decode tasks none emptyRegistry with h2 | h2 | h2 <;>
      rw [h2]
    · cases interrupted <;> simp
    · simp
    · simp

/-- Claim C6 witness: a run of one successful task with no interrupt exits 0,
and a spawn exception makes the runner halt with status 1. -/
theorem process_exit_codes_witness :
    schedulerStatus [⟨Except.ok 0, true, true, ⟨[], 0⟩, "python3", "pyspark.sql", [], []⟩]
        (fun _ => "") false = 0 ∧
    (runIndividualTest ⟨Except.error (), true, true, ⟨[], 0⟩, "python3", "pyspark.sql", [], []⟩
        (fun _ => "") none emptyRegistry).tend = TEnd.halted 1 := by
  have h := process_exit_codes
    [⟨Except.ok 0, true, true, ⟨[], 0⟩, "python3", "pyspark.sql", [], []⟩] (fun _ => "") false
  constructor
  · refine h.1.mpr ⟨rfl, ?_⟩
    intro t ht l r
    rw [List.mem_singleton] at ht
    subst ht
    rfl
  · exact h.2.1 ⟨Except.error (), true, true, ⟨[], 0⟩, "python3", "pyspark.sql", [], []⟩
      none emptyRegistry () rfl

/-- Claim C7: whatever happens inside the failure branch's try-block —
including an exception while appending to the log file or while formatting
and echoing console output — the `finally` block still prints the summary
line naming the failing test and its executable, and the process still
terminates with the nonzero status -1. -/
theorem failure_reporting_always_fatal (decode : List Nat → String)
    (log : Option (List Nat)) (buf : OutBuf) (testName pythonExec : String)
    (reportOk : Bool) (plog : List Nat) (pecho : List String) :
    (failureReport decode log buf testName pythonExec reportOk plog pecho).summary =
      some (testName, pythonExec) ∧
    (failureReport decode log buf testName pythonExec reportOk plog pecho).code = -1 ∧
    (failureReport decode log buf testName pythonExec reportOk plog pecho).code ≠ 0 := by
  cases reportOk with
  | false =>
    refine ⟨rfl, rfl, ?_⟩
    have hcode :
        (failureReport decode log buf testName pythonExec false plog pecho).code = -1 := rfl
    rw [hcode]
    decide
  | true =>
    refine ⟨rfl, rfl, ?_⟩
    have hcode :
        (failureReport decode log buf testName pythonExec true plog pecho).code = -1 := rfl
    rw [hcode]
    decide

/-- Claim C8: at run start the log file is removed when it exists (so the log
holds only this run's failures), and the failure branch seeks the captured
buffer back to its beginning and appends the *entire* buffer byte-for-byte to
the append-mode log file, whatever the buffer's read position was. -/
theorem failure_log_append (decode : List Nat → String) (f log : Option (List Nat))
    (buf : OutBuf) (testName pythonExec : String) :
    startupLogFile f = none ∧
    (failureReportOk decode log buf testName pythonExec).logFile =
      some ((log.getD []) ++ buf.lines.flatten) := by
  constructor
  · cases f <;> rfl
  · rfl

/-- `re.match('[0-9]+', s)` finds a match iff `s` begins with a nonempty run
of decimal digits. -/
theorem digitRun_iff (s : List Char) :
    digitRun s = true ↔
      ∃ ds rest, s = ds ++ rest ∧ ds ≠ [] ∧ ∀ c ∈ ds, '0' ≤ c ∧ c ≤ '9' := by
  constructor
  · intro h
    match s, h with
    | c :: t, h => ?_
    simp only [digitRun, Bool.and_eq_true, decide_eq_true_eq] at h
    refine ⟨[c], t, rfl, by simp, ?_⟩
    intro x hx
    rw [List.mem_singleton] at hx
    subst hx
    exact h
  · intro h
    obtain ⟨ds, rest, hs, hne, hd⟩ := h
    cases ds with
    | nil => exact absurd rfl hne
    | cons d ds' =>
      subst hs
      simp only [List.cons_append, digitRun, Bool.and_eq_true, decide_eq_true_eq]
      exact hd d (List.mem_cons_self d _)

/-- Claim C9: a captured line is re-emitted to the console by the failure
branch iff its decoded text does not begin with one or more decimal digits;
lines beginning with a digit are suppressed. -/
theorem failure_echo_filter (decode : List Nat → String) (log : Option (List Nat))
    (buf : OutBuf) (testName pythonExec : String) (line : String) :
    line ∈ (failureReportOk decode log buf testName pythonExec).echoed ↔
      line ∈ buf.lines.map decode ∧
        ¬ ∃ ds rest, line.data = ds ++ rest ∧ ds ≠ [] ∧
            ∀ c ∈ ds, '0' ≤ c ∧ c ≤ '9' := by
  have hshape : (failureReportOk decode log buf testName pythonExec).echoed =
      echoLines (buf.lines.map decode) := rfl
  rw [hshape, echoLines, List.mem_filter]
  constructor
  · intro h
    refine ⟨h.1, ?_⟩
    intro hd
    have := (digitRun_iff line.data).mpr hd
    rw [this] at h
    simp at h
  · intro h
    refine ⟨h.1, ?_⟩
    cases hd : digitRun line.data
    · simp
    · exact absurd ((digitRun_iff line.data).mp hd) h.2

/-! ## Subprocess environment (`run_individual_python_test` lines 68-100) -/

/-- One dictionary assignment `env[k] = v`. -/
def envSet (env : String → Option String) (k v : String) : String → Option String :=
  fun x => if x = k then some v else env x

/-- `env = dict(os.environ)` followed by the `env.update({...})` of six keys
(lines 70-78), then `env["TMPDIR"] = tmp_dir` (line 86) and
`env["PYSPARK_SUBMIT_ARGS"] = " ".join(spark_args)` (line 100).
`classpath` is `SPARK_DIST_CLASSPATH`, `whichPython` the resolved
`which(pyspark_python)` (used for both the driver and worker roles),
`tmpDir` and `submitArgs` the computed values. -/
def buildEnv (parent : String → Option String)
    (classpath whichPython tmpDir submitArgs : String) : String → Option String :=
  envSet (envSet (envSet (envSet (envSet (envSet (envSet (envSet parent
    "SPARK_DIST_CLASSPATH" classpath)
    "SPARK_TESTING" "1")
    "SPARK_PREPEND_CLASSES" "1")
    "PYSPARK_PYTHON" whichPython)
    "PYSPARK_DRIVER_PYTHON" whichPython)
    "PYARROW_IGNORE_TIMEZONE" "1")
    "TMPDIR" tmpDir)
    "PYSPARK_SUBMIT_ARGS" submitArgs

/-- The eight keys the code overrides or adds. -/
def overriddenKeys : List String :=
  ["SPARK_DIST_CLASSPATH", "SPARK_TESTING", "SPARK_PREPEND_CLASSES",
   "PYSPARK_PYTHON", "PYSPARK_DRIVER_PYTHON", "PYARROW_IGNORE_TIMEZONE",
   "TMPDIR", "PYSPARK_SUBMIT_ARGS"]

/-- Claim C10: the subprocess environment is the parent process's environment
with exactly the eight listed keys overridden or added — to the classpath,
"1", "1", the resolved python (twice), "1", the isolated temp directory and
the submit-args string — and every other inherited variable passed through
unchanged. -/
theorem subprocess_env_frame (parent : String → Option String)
    (classpath whichPython tmpDir submitArgs : String) (k : String) :
    (k ∉ overriddenKeys →
      buildEnv parent classpath whichPython tmpDir submitArgs k = parent k) ∧
    buildEnv parent classpath whichPython tmpDir submitArgs "SPARK_DIST_CLASSPATH" =
      some classpath ∧
    buildEnv parent classpath whichPython tmpDir submitArgs "SPARK_TESTING" = some "1" ∧
    buildEnv parent classpath whichPython tmpDir submitArgs "SPARK_PREPEND_CLASSES" =
      some "1" ∧
    buildEnv parent classpath whichPython tmpDir submitArgs "PYSPARK_PYTHON" =
      some whichPython ∧
    buildEnv parent classpath whichPython tmpDir submitArgs "PYSPARK_DRIVER_PYTHON" =
      some whichPython ∧
    buildEnv parent classpath whichPython tmpDir submitArgs "PYARROW_IGNORE_TIMEZONE" =
      some "1" ∧
    buildEnv parent classpath whichPython tmpDir submitArgs "TMPDIR" = some tmpDir ∧
    buildEnv parent classpath whichPython tmpDir submitArgs "PYSPARK_SUBMIT_ARGS" =
      some submitArgs := by
  refine ⟨?_, ?_, ?_, ?_, ?_, ?_, ?_, ?_, ?_⟩
  · intro hk
    simp only [overriddenKeys, List.mem_cons, List.not_mem_nil, or_false, not_or] at hk
    obtain ⟨h1, h2, h3, h4, h5, h6, h7, h8⟩ := hk
    simp [buildEnv, envSet, h1, h2, h3, h4, h5, h6, h7, h8]
  all_goals simp [buildEnv, envSet]

/-- Claim C10 witness: a variable outside the eight keys (here `PATH`) passes
through unchanged, and an overridden key takes its new value. -/
theorem subprocess_env_frame_witness :
    buildEnv (fun k => if k = "PATH" then some "/usr/bin" else none)
        "cp" "py" "tmp" "args" "PATH" = some "/usr/bin" ∧
    buildEnv (fun k => if k = "PATH" then some "/usr/bin" else none)
        "cp" "py" "tmp" "args" "SPARK_TESTING" = some "1" := by
  have h := subprocess_env_frame (fun k => if k = "PATH" then some "/usr/bin" else none)
    "cp" "py" "tmp" "args" "PATH"
  refine ⟨(h.1 (by decide)).trans (by simp), h.2.2.1⟩

end RunTests
